import Mathlib

/-!
Verification of the s3-api repository (`src/s3.js`) against its natural-language
specification.  The S3 backend (AWS SDK) is modelled by its documented
semantics: `ListObjectsV2` serves pages of up to `MaxKeys` keys lexicographically
after `StartAfter`; `DeleteObjectCommand` silently succeeds on missing keys;
`HeadObjectCommand` errors with `NoSuchKey` on missing keys.  JSON
serialization/parsing (JS builtins) are uninterpreted parameters.
-/

namespace S3Spec

/-- A JavaScript `Error` as the code produces them: a message, plus an optional
`code` property (the code sets `err.code = "NoSuchKey"` on not-found errors). -/
structure JSError where
  message : String
  code : Option String := none
deriving DecidableEq, Repr

/-- An object descriptor as built by `list`/`walk` in `src/s3.js`
(`{ key, size, mtime }`, with `mtime` in epoch seconds). -/
structure S3Obj where
  key : String
  size : Nat
  mtime : Int
deriving DecidableEq, Repr

/-- Node's `Path.basename`: the last path component, ignoring trailing slashes
(modelled from the Node.js builtin used at `src/s3.js:654`), computed on the
character list of the path. -/
def basenameChars (cs : List Char) : List Char :=
  let r := cs.reverse.dropWhile (fun c => c = '/')
  if r.isEmpty then (if cs.isEmpty then [] else ['/'])
  else (r.takeWhile (fun c => c ≠ '/')).reverse

/-- Node's `Path.basename` on a string. -/
def basename (p : String) : String := ⟨basenameChars p.data⟩

/-- The JS regex test `key.match(/\/$/)` (`src/s3.js:651`): the key's last
character is the path delimiter. -/
def endsWithSlash (s : String) : Bool := s.data.getLast? == some '/'

/-- Lexicographic order on S3 keys, as character lists.  This is exactly the
order of Lean's `String` instance (`String` `<` is defined as `<` on `data`);
stated on `data` so it computes by kernel reduction. -/
def keyDataLt (a b : String) : Prop := a.data < b.data

instance (a b : String) : Decidable (keyDataLt a b) := by
  unfold keyDataLt; infer_instance

/-- The `StartAfter` semantics of S3 `ListObjectsV2`: a key qualifies when it is
lexicographically after the `StartAfter` key (all keys qualify when absent). -/
def afterKey : Option String → S3Obj → Bool
  | none, _ => true
  | some k, o => decide (keyDataLt k o.key)

/-- One S3 `ListObjectsV2` response: up to `maxKeys` qualifying objects
(`Contents`) and the `IsTruncated` flag. -/
def listPage (objs : List S3Obj) (sa : Option String) (maxKeys : Nat) :
    List S3Obj × Bool :=
  let rest := objs.filter (afterKey sa)
  (rest.take maxKeys, decide (maxKeys < rest.length))

/-- The per-item test of the `list` page loop (`src/s3.js:644-658`): skip
zero-byte folder markers (keys ending in `/`) unless `emptyFolders` is set,
then require the `filter` predicate and the `filespec` match on the basename. -/
def keepEntry (emptyFolders : Bool) (filt : S3Obj → Bool) (fsp : String → Bool)
    (o : S3Obj) : Bool :=
  if o.size == 0 && endsWithSlash o.key && !emptyFolders then false
  else filt o && fsp (basename o.key)

/-- The `async.whilst` pagination loop of `list` (`src/s3.js:633-688`):
fetch a page, accumulate matching descriptors and their byte sizes, and
continue while `IsTruncated` and the page was non-empty, advancing
`StartAfter` to the last key of the page.  `fuel` bounds the iteration count
(the JS loop runs until the backend stops truncating); `none` means the fuel
was exhausted, which never happens for a consistent (sorted) backend. -/
def listLoop (keep : S3Obj → Bool) (objs : List S3Obj) :
    Nat → Option String → List S3Obj → Nat → Option (List S3Obj × Nat)
  | 0, _, _, _ => none
  | fuel + 1, sa, acc, bytes =>
    let page := listPage objs sa 1000
    let items := page.1
    let kept := items.filter keep
    let acc' := acc ++ kept
    let bytes' := bytes + (kept.map S3Obj.size).sum
    match page.2, items.getLast? with
    | true, some last => listLoop keep objs fuel (some last.key) acc' bytes'
    | _, _ => some (acc', bytes')

/-- The error `list` returns when both `filter` and `older` are supplied
(`src/s3.js:612`). -/
def mutualExclusiveErr : JSError :=
  { message := "The 'filter' and 'older' properties are mutually exclusive." }

/-- `S3API.list` (`src/s3.js:599-689`): validate that `filter` and `older` are
not both supplied, default `filespec` to match-all and `filter` to accept-all,
compile `older` into an mtime filter, then run the pagination loop.  The
backend is abstracted as the full (lexicographically sorted) list of objects
under the requested prefix; results are `(files, total_bytes)`.  The code
tests the optional arguments by JS truthiness, so `some` here models a
supplied truthy value (an `older` of `0` is falsy and acts as absent). -/
def s3list (objs : List S3Obj) (filter? : Option (S3Obj → Bool))
    (older? : Option Int) (now : Int) (filespec? : Option (String → Bool))
    (emptyFolders : Bool) : Except JSError (List S3Obj × Nat) :=
  if filter?.isSome && older?.isSome then .error mutualExclusiveErr
  else
    let fsp := filespec?.getD (fun _ => true)
    let filt : S3Obj → Bool := match older? with
      | some older => fun f => decide (f.mtime ≤ now - older)
      | none => filter?.getD (fun _ => true)
    match listLoop (keepEntry emptyFolders filt fsp) objs (objs.length + 1)
        none [] 0 with
    | some r => .ok r
    | none => .error { message := "listing did not terminate" }

/-- The `async.whilst` pagination loop of `walk` (`src/s3.js:733-782`): same
pagination as `list` but no folder-marker skip and no byte accumulation; the
synchronous `iterator` is fired per matching file.  The observable behaviour
is the ordered list of files passed to the iterator, which this model
returns. -/
def walkLoop (keep : S3Obj → Bool) (objs : List S3Obj) :
    Nat → Option String → List S3Obj → Option (List S3Obj)
  | 0, _, _ => none
  | fuel + 1, sa, acc =>
    let page := listPage objs sa 1000
    let items := page.1
    let acc' := acc ++ items.filter keep
    match page.2, items.getLast? with
    | true, some last => walkLoop keep objs fuel (some last.key) acc'
    | _, _ => some acc'

/-- `S3API.walk` (`src/s3.js:702-783`): unlike `list`, it performs NO
mutual-exclusivity check on `filter`/`older`; when `older` is supplied
(truthy, as in `list`) the custom `filter` is silently overwritten by the
mtime filter (`src/s3.js:719-723`).  The required `iterator` is modelled by
returning the list of files it is fired for. -/
def s3walk (objs : List S3Obj) (filter? : Option (S3Obj → Bool))
    (older? : Option Int) (now : Int) (filespec? : Option (String → Bool)) :
    Except JSError (List S3Obj) :=
  let fsp := filespec?.getD (fun _ => true)
  let filt : S3Obj → Bool := match older? with
    | some older => fun f => decide (f.mtime ≤ now - older)
    | none => filter?.getD (fun _ => true)
  match walkLoop (fun o => filt o && fsp (basename o.key)) objs
      (objs.length + 1) none [] with
  | some r => .ok r
  | none => .error { message := "walk did not terminate" }

/-- The backend serves keys in lexicographic order (S3 `ListObjectsV2`
guarantee), so the abstract listing is strictly sorted by key. -/
def KeysSorted (l : List S3Obj) : Prop :=
  l.Pairwise (fun a b => keyDataLt a.key b.key)

instance (l : List S3Obj) : Decidable (KeysSorted l) := by
  unfold KeysSorted; exact l.instDecidablePairwise

lemma mem_of_getLast?_eq {α : Type _} {l : List α} {a : α}
    (h : l.getLast? = some a) : a ∈ l := by
  have hd : l.dropLast ++ [a] = l :=
    List.dropLast_append_getLast? a (Option.mem_def.mpr h)
  rw [← hd]
  exact List.mem_append_right _ (List.mem_singleton_self a)

/-- In a strictly key-sorted list, every element's key is at most the key of
the last element. -/
lemma key_le_getLast : ∀ (l : List S3Obj),
    l.Pairwise (fun a b => keyDataLt a.key b.key) →
    ∀ last : S3Obj, l.getLast? = some last →
    ∀ x ∈ l, x.key.data ≤ last.key.data := by
  intro l
  induction l with
  | nil => intro _ last h; simp at h
  | cons a t ih =>
    intro hp last hl x hx
    cases t with
    | nil =>
      simp only [List.getLast?_singleton, Option.some.injEq] at hl
      rcases List.mem_singleton.mp hx with rfl
      rw [hl]
    | cons b t' =>
      rw [List.getLast?_cons_cons] at hl
      rcases List.pairwise_cons.mp hp with ⟨ha, ht⟩
      rcases List.mem_cons.mp hx with rfl | hx'
      · exact le_of_lt (ha last (mem_of_getLast?_eq hl))
      · exact ih ht last hl x hx'

/-- After a full page ending in `last`, filtering the whole (sorted) backend by
`StartAfter last.key` yields exactly the unprocessed suffix. -/
lemma filter_afterKey_eq_drop (pre rest : List S3Obj) (n : Nat) (last : S3Obj)
    (hs : KeysSorted (pre ++ rest))
    (hl : (rest.take n).getLast? = some last) :
    (pre ++ rest).filter (afterKey (some last.key)) = rest.drop n := by
  rcases List.pairwise_append.mp hs with ⟨_, hrest, hcross⟩
  have hlast_take : last ∈ rest.take n := mem_of_getLast?_eq hl
  have hlast_rest : last ∈ rest := List.mem_of_mem_take hlast_take
  have htd : rest.take n ++ rest.drop n = rest := List.take_append_drop n rest
  have hrest2 : (rest.take n ++ rest.drop n).Pairwise
      (fun a b => keyDataLt a.key b.key) := by rw [htd]; exact hrest
  rcases List.pairwise_append.mp hrest2 with ⟨htake, _, hcross2⟩
  rw [List.filter_append]
  have h1 : pre.filter (afterKey (some last.key)) = [] := by
    rw [List.filter_eq_nil_iff]
    intro x hx
    have hlt : keyDataLt x.key last.key := hcross x hx last hlast_rest
    simp only [afterKey, keyDataLt, decide_eq_true_eq]
    exact not_lt_of_gt hlt
  have h2 : rest.filter (afterKey (some last.key)) = rest.drop n := by
    conv_lhs => rw [← htd]
    rw [List.filter_append]
    have h2a : (rest.take n).filter (afterKey (some last.key)) = [] := by
      rw [List.filter_eq_nil_iff]
      intro x hx
      have hxle : x.key.data ≤ last.key.data :=
        key_le_getLast (rest.take n) htake last hl x hx
      simp only [afterKey, keyDataLt, decide_eq_true_eq]
      exact not_lt_of_ge hxle
    have h2b : (rest.drop n).filter (afterKey (some last.key)) = rest.drop n := by
      rw [List.filter_eq_self]
      intro x hx
      have hlt : keyDataLt last.key x.key := hcross2 last hlast_take x hx
      simp only [afterKey, keyDataLt, decide_eq_true_eq]
      exact hlt
    rw [h2a, h2b, List.nil_append]
  rw [h1, h2, List.nil_append]

/-- The pagination loop of `list`, run on a sorted backend, visits every object
exactly once: it returns the accumulated matches over the whole remaining
suffix, with `total_bytes` the sum of their sizes. -/
lemma listLoop_run (keep : S3Obj → Bool) :
    ∀ (fuel : Nat) (pre rest : List S3Obj) (sa : Option String)
      (acc : List S3Obj) (bytes : Nat),
      KeysSorted (pre ++ rest) →
      (pre ++ rest).filter (afterKey sa) = rest →
      rest.length < 1000 * fuel →
      listLoop keep (pre ++ rest) fuel sa acc bytes
        = some (acc ++ rest.filter keep,
                bytes + ((rest.filter keep).map S3Obj.size).sum) := by
  intro fuel
  induction fuel with
  | zero => intro pre rest sa acc bytes _ _ hf; omega
  | succ fuel ih =>
    intro pre rest sa acc bytes hs hsa hf
    rw [listLoop]
    simp only [listPage, hsa]
    by_cases h1000 : 1000 < rest.length
    · -- truncated page: process the first 1000 entries and loop
      have htake_len : (rest.take 1000).length = 1000 := by
        simp [Nat.min_eq_left (Nat.le_of_lt h1000)]
      have htake_ne : rest.take 1000 ≠ [] := by
        intro hnil; rw [hnil] at htake_len; simp at htake_len
      have hsome : (rest.take 1000).getLast?.isSome :=
        List.getLast?_isSome.mpr htake_ne
      rcases Option.isSome_iff_exists.mp hsome with ⟨last, hl⟩
      simp only [h1000, decide_True, hl]
      have htd : rest.take 1000 ++ rest.drop 1000 = rest :=
        List.take_append_drop 1000 rest
      have happ : pre ++ rest = (pre ++ rest.take 1000) ++ rest.drop 1000 := by
        rw [List.append_assoc, htd]
      have hs' : KeysSorted ((pre ++ rest.take 1000) ++ rest.drop 1000) := by
        rw [← happ]; exact hs
      have hsa' : ((pre ++ rest.take 1000) ++ rest.drop 1000).filter
          (afterKey (some last.key)) = rest.drop 1000 := by
        rw [← happ]
        exact filter_afterKey_eq_drop pre rest 1000 last hs hl
      have hf' : (rest.drop 1000).length < 1000 * fuel := by
        rw [List.length_drop]; omega
      have hloop := ih (pre ++ rest.take 1000) (rest.drop 1000) (some last.key)
        (acc ++ (rest.take 1000).filter keep)
        (bytes + (((rest.take 1000).filter keep).map S3Obj.size).sum)
        hs' hsa' hf'
      rw [happ, hloop]
      have e1 : acc ++ (rest.take 1000).filter keep
            ++ (rest.drop 1000).filter keep = acc ++ rest.filter keep := by
        conv_rhs => rw [← htd]
        rw [List.filter_append, List.append_assoc]
      have e2 : bytes + (((rest.take 1000).filter keep).map S3Obj.size).sum
            + (((rest.drop 1000).filter keep).map S3Obj.size).sum
          = bytes + ((rest.filter keep).map S3Obj.size).sum := by
        conv_rhs => rw [← htd]
        rw [List.filter_append, List.map_append, List.sum_append]
        omega
      rw [e1, e2]
    · -- final page: everything that remains fits in one page
      have htake : rest.take 1000 = rest :=
        List.take_of_length_le (Nat.le_of_not_lt h1000)
      simp only [h1000, decide_False, htake]

/-!  ## Claim C1 — pagination completeness of `list`  -/

/-- **C1** fails as stated: a backend can hold a zero-byte folder-marker object
(key ending in `/`), which `list` skips when `emptyFolders` is not set
(`src/s3.js:651`).  Here the backend holds K = 1 objects yet `list` returns
0 descriptors. -/
theorem list_marker_counterexample :
    s3list [⟨"p/", 0, 0⟩] none none 0 none false = .ok ([], 0)
    ∧ ([(⟨"p/", 0, 0⟩ : S3Obj)].length = 1) := ⟨rfl, rfl⟩

/-- **C1** (amended): for every sorted backend holding K objects under the
prefix, none of which is a zero-byte folder marker, `list` with no filter,
filespec or older argument pages through the whole listing and returns exactly
those K descriptors with `total_bytes` the sum of their sizes; an empty
bucket/prefix yields `([], 0)`, not an error. -/
theorem list_pagination_complete (objs : List S3Obj) (now : Int)
    (hs : KeysSorted objs)
    (hmark : ∀ o ∈ objs, ¬(o.size = 0 ∧ endsWithSlash o.key = true)) :
    s3list objs none none now none false
      = .ok (objs, (objs.map S3Obj.size).sum)
    ∧ s3list [] none none now none false = .ok ([], 0) := by
  constructor
  · have hkeep : ∀ o ∈ objs,
        keepEntry false (fun _ => true) (fun _ => true) o = true := by
      intro o ho
      have hm := hmark o ho
      by_cases h0 : o.size = 0
      · by_cases he : endsWithSlash o.key = true
        · exact absurd ⟨h0, he⟩ hm
        · simp [keepEntry, h0, he]
      · simp [keepEntry, h0]
    have hfil : objs.filter (keepEntry false (fun _ => true) (fun _ => true))
        = objs := List.filter_eq_self.mpr (by simpa using hkeep)
    have hrun := listLoop_run (keepEntry false (fun _ => true) (fun _ => true))
      (objs.length + 1) [] objs none [] 0 hs
      (List.filter_eq_self.mpr (fun a _ => rfl)) (by omega)
    rw [List.nil_append] at hrun
    simp only [List.nil_append, Nat.zero_add, hfil] at hrun
    simp only [s3list, Option.isSome_none, Bool.and_self, Bool.false_eq_true,
      if_false, Option.getD_none, hrun]
  · rfl

theorem list_pagination_complete_witness :
    (KeysSorted [⟨"a", 3, 0⟩, ⟨"b", 4, 0⟩, ⟨"c", 5, 0⟩]
      ∧ (∀ o ∈ ([⟨"a", 3, 0⟩, ⟨"b", 4, 0⟩, ⟨"c", 5, 0⟩] : List S3Obj),
          ¬(o.size = 0 ∧ endsWithSlash o.key = true)))
    ∧ (s3list [⟨"a", 3, 0⟩, ⟨"b", 4, 0⟩, ⟨"c", 5, 0⟩] none none 0 none false
        = .ok ([⟨"a", 3, 0⟩, ⟨"b", 4, 0⟩, ⟨"c", 5, 0⟩],
            (([⟨"a", 3, 0⟩, ⟨"b", 4, 0⟩, ⟨"c", 5, 0⟩] : List S3Obj).map
              S3Obj.size).sum)
      ∧ s3list [] none none 0 none false = .ok ([], 0)) :=
  ⟨⟨by decide, by decide⟩,
    list_pagination_complete [⟨"a", 3, 0⟩, ⟨"b", 4, 0⟩, ⟨"c", 5, 0⟩] 0
      (by decide) (by decide)⟩

/-!  ## Claim C8 — `filter`/`older` mutual exclusivity in `list` and `walk`  -/

/-- **C8** fails as stated for `walk`: unlike `list` (`src/s3.js:612`), `walk`
has no mutual-exclusivity check (`src/s3.js:702-727`).  With both a custom
filter (here reject-everything) and `older` supplied, `walk` does not fail
with the InvalidArgument error: it silently replaces the filter with the
`older`-derived one and iterates the matching file. -/
theorem walk_filter_older_counterexample :
    s3walk [⟨"a", 5, 0⟩] (some (fun _ => false)) (some 10) 100 none
      = .ok [⟨"a", 5, 0⟩] := rfl

/-- **C8** (amended): when both a custom `filter` function and an `older`
argument are supplied, `list` fails with the mutual-exclusivity caller error
without issuing any backend request (the result is this error for every
backend state), but `walk` performs no such check: the `older` argument
silently replaces the custom filter, so walking with both equals walking with
only `older`. -/
theorem list_filter_older_mutually_exclusive
    (objs : List S3Obj) (f : S3Obj → Bool) (older : Int) (now : Int)
    (fsp : Option (String → Bool)) (ef : Bool) :
    s3list objs (some f) (some older) now fsp ef = .error mutualExclusiveErr
    ∧ s3walk objs (some f) (some older) now fsp
        = s3walk objs none (some older) now fsp := ⟨rfl, rfl⟩

/-!  ## Key/value store, transfer primitives and cache

The remaining operations of `src/s3.js` act on a keyed object store.  The
store keeps, per key, the object content and modification time; backend
`DeleteObjectCommand` failures are modelled by an error-injection table
(`failDelete`), since the AWS backend may fail any individual call.  JSON
serialization (`JSON.stringify`) and parsing (`JSON.parse`) are JS builtins
and enter the model as uninterpreted function parameters. -/

/-- A JSON-like JavaScript value, the domain of the key/value codec. -/
inductive JVal where
  | null
  | bool (b : Bool)
  | num (n : Int)
  | str (s : String)
  | arr (xs : List JVal)
  | obj (kvs : List (String × JVal))

/-- JS truthiness, as tested by `if (!opts.value)` (`src/s3.js:134`). -/
def jsTruthy : JVal → Bool
  | .null => false
  | .bool b => b
  | .num n => decide (n ≠ 0)
  | .str s => decide (s ≠ "")
  | .arr _ => true
  | .obj _ => true

/-- The JS test `typeof(v) == 'object'` (`src/s3.js:135`); arrays and `null`
are objects in JS. -/
def jsTypeofObject : JVal → Bool
  | .null => true
  | .arr _ => true
  | .obj _ => true
  | _ => false

/-- A stored S3 object: its content bytes and modification time. -/
structure SObj where
  content : String
  mtime : Int
deriving DecidableEq, Repr

/-- Association-list lookup by key. -/
def alookup {β : Type _} (l : List (String × β)) (k : String) : Option β :=
  (l.find? (fun e => e.1 == k)).map (fun e => e.2)

/-- Association-list removal of a key. -/
def aerase {β : Type _} (l : List (String × β)) (k : String) :
    List (String × β) :=
  l.filter (fun e => !(e.1 == k))

/-- Association-list insert-or-replace. -/
def ainsert {β : Type _} (l : List (String × β)) (k : String) (v : β) :
    List (String × β) :=
  aerase l k ++ [(k, v)]

/-- The S3 backend state: the objects of the bucket, plus an error-injection
table naming keys whose backend `DeleteObjectCommand` fails (and with which
error). -/
structure Store where
  objs : List (String × SObj)
  failDelete : List (String × JSError) := []

/-- Modelled from the spec: the pixl-cache LRU configuration (the pixl-cache
implementation is not part of this repository's sources; §4.4 and §3 of the
spec describe it: a `keyMatch` inclusion regex, a `maxItems` capacity bound
and a `maxAge` TTL). -/
structure CacheCfg where
  keyMatch : String → Bool
  maxItems : Option Nat := none
  maxAge : Option Int := none

/-- Modelled from the spec: the cache holds `(key, value, insertedAt)` entries
in insertion order (oldest first). -/
structure CacheState where
  cfg : CacheCfg
  entries : List (String × JVal × Int)

/-- Modelled from the spec: `has(key)` — is an entry for the key present. -/
def CacheState.hasKey (c : CacheState) (k : String) : Bool :=
  c.entries.any (fun e => e.1 == k)

/-- Modelled from the spec: `get(key)` — the entry's value when present and
fresh (age strictly below `maxAge`; an entry with age ≥ maxAge is expired). -/
def CacheState.getVal (c : CacheState) (k : String) (now : Int) : Option JVal :=
  match c.entries.find? (fun e => e.1 == k) with
  | some (_, v, t) =>
    match c.cfg.maxAge with
    | some ma => if now - t < ma then some v else none
    | none => some v
  | none => none

/-- Modelled from the spec: `delete(key)`. -/
def CacheState.del (c : CacheState) (k : String) : CacheState :=
  { c with entries := c.entries.filter (fun e => !(e.1 == k)) }

/-- Modelled from the spec: the capacity eviction — when the count exceeds
`maxItems`, evict from the front (oldest insertion first) until the bound
holds. -/
def capEvict : Option Nat → List (String × JVal × Int) →
    List (String × JVal × Int)
  | some m, es => es.drop (es.length - m)
  | none, es => es

/-- Modelled from the spec: `set(key, value)` — append the new entry (newest
insertion last), then apply the capacity eviction. -/
def CacheState.set (c : CacheState) (k : String) (v : JVal) (now : Int) :
    CacheState :=
  CacheState.mk c.cfg
    (capEvict c.cfg.maxItems
      (c.entries.filter (fun e => !(e.1 == k)) ++ [(k, v, now)]))

/-- The client-visible state: the backend store and the optional cache layer
(`this.cache`/`this.lru` of the `S3API` instance). -/
structure ClientState where
  store : Store
  cache : Option CacheState := none

/-- The not-found error `head` synthesizes (`src/s3.js:298-305`), also used by
`getStream` (`src/s3.js:1342-1346`). -/
def notFoundErr (key : String) : JSError :=
  { message := "Failed to fetch key: " ++ key ++ ": Not found",
    code := some "NoSuchKey" }

/-- The not-found error `copy` synthesizes (`src/s3.js:359-364`); note it names
the destination key. -/
def notFoundCopyErr (key : String) : JSError :=
  { message := "Failed to copy object: " ++ key ++ ": Not found",
    code := some "NoSuchKey" }

/-- Metadata returned by `head`: content size and modification time. -/
structure HeadMeta where
  size : Nat
  mtime : Int
deriving DecidableEq, Repr

/-- `S3API.head` (`src/s3.js:269-313`): `HeadObjectCommand`, with the missing
key case rewritten into the synthesized not-found error, suppressed entirely
in `nonfatal` mode. -/
def s3head (st : ClientState) (key : String) (nonfatal : Bool) :
    Except JSError (Option HeadMeta) :=
  match alookup st.store.objs key with
  | some o => .ok (some { size := o.content.length, mtime := o.mtime })
  | none => if nonfatal then .ok none else .error (notFoundErr key)

/-- The raw backend `DeleteObjectCommand` semantics (per the comment at
`src/s3.js:819-821` and the AWS documentation it cites): deleting reports NO
error for non-existent keys; genuine backend failures are modelled by the
`failDelete` injection table. -/
def awsDeleteRaw (s : Store) (key : String) : Except JSError Store :=
  match alookup s.failDelete key with
  | some e => .error e
  | none => .ok { s with objs := aerase s.objs key }

/-- The cache-removal step of `delete` (`src/s3.js:814-817`): when the cache is
enabled, the key matches the pattern and is present, remove it from the cache
before anything else. -/
def cacheRemoveStep (st : ClientState) (key : String) : ClientState :=
  match st.cache with
  | some c =>
    if c.cfg.keyMatch key && c.hasKey key
    then { st with cache := some (c.del key) } else st
  | none => st

/-- `S3API.delete` (`src/s3.js:793-839`): dry-run short-circuits; otherwise
remove the key from the cache, `head` the key first (because the backend
delete is silent on missing keys), then issue the backend delete. -/
def s3delete (st : ClientState) (key : String) (dry : Bool) :
    Except JSError Unit × ClientState :=
  if dry then (.ok (), st)
  else
    match s3head (cacheRemoveStep st key) key false with
    | .error e => (.error e, cacheRemoveStep st key)
    | .ok _ =>
      match awsDeleteRaw (cacheRemoveStep st key).store key with
      | .error e => (.error e, cacheRemoveStep st key)
      | .ok s' => (.ok (), { cacheRemoveStep st key with store := s' })

/-- `S3API.copy` (`src/s3.js:326-371`): server-side `CopyObjectCommand`; a
missing source yields the rewritten not-found error (named after the
destination key); on success the destination holds a copy of the source
content (with a fresh modification time). -/
def s3copy (st : ClientState) (sourceKey destKey : String) (now : Int)
    (dry : Bool) : Except JSError Unit × ClientState :=
  if dry then (.ok (), st)
  else
    match alookup st.store.objs sourceKey with
    | none => (.error (notFoundCopyErr destKey), st)
    | some o =>
      (.ok (), { st with store := { st.store with
          objs := ainsert st.store.objs destKey ⟨o.content, now⟩ } })

/-- `S3API.move` (`src/s3.js:441-453`): `copy`, then `delete` of the source;
the delete's outcome (and state) is returned as-is — no rollback of the
copy. -/
def s3move (st : ClientState) (sourceKey destKey : String) (now : Int)
    (dry : Bool) : Except JSError Unit × ClientState :=
  match s3copy st sourceKey destKey now dry with
  | (.error e, st') => (.error e, st')
  | (.ok _, st') => s3delete st' sourceKey dry

/-- The cache-population step shared by `put` (`src/s3.js:150-153`) and `get`
(`src/s3.js:204-207`): when the cache is enabled and the key matches the
pattern, store the value. -/
def cacheSetStep (st : ClientState) (key : String) (v : JVal) (now : Int) :
    ClientState :=
  match st.cache with
  | some c =>
    if c.cfg.keyMatch key
    then { st with cache := some (c.set key v now) } else st
  | none => st

/-- `S3API.put` (`src/s3.js:129-157`): validate the value (truthy, of object
type, not a Buffer — Buffers do not occur in `JVal`), serialize with
`JSON.stringify` (the uninterpreted `stringify`), store the buffer (dry-run
skips the store), then on success cache the PRE-serialization value object
`v` itself, not a re-parsed copy. -/
def s3put (stringify : JVal → String) (st : ClientState) (key : String)
    (v : JVal) (now : Int) (dry : Bool) : Except JSError Unit × ClientState :=
  if !jsTruthy v then
    (.error { message := "Missing required 'value' (object) property." }, st)
  else if !jsTypeofObject v then
    (.error { message := "The 'value' property must be an object." }, st)
  else
    (.ok (), cacheSetStep
      (if dry then st
       else { st with store := { st.store with
          objs := ainsert st.store.objs key ⟨stringify v, now⟩ } })
      key v now)

/-- `get` result metadata: the `{cached: true}` sentinel on a cache hit
(`src/s3.js:187`), or the backend metadata. -/
inductive GetMeta where
  | cached
  | backend (m : HeadMeta)

/-- `S3API.get` (`src/s3.js:173-212`): consult the cache first (when enabled
and the key matches); on a hit return the cached value with the
`{cached: true}` marker and no backend request.  On a miss fetch the bytes
(`getBuffer`), parse with `JSON.parse` (the uninterpreted `jparse`); a parse
failure propagates the error WITHOUT populating the cache; on success
populate the cache and return.  The third component counts backend object
requests issued by the call. -/
def s3get (jparse : String → Except JSError JVal) (st : ClientState)
    (key : String) (now : Int) :
    Except JSError (JVal × GetMeta) × ClientState × Nat :=
  match (match st.cache with
    | some c => if c.cfg.keyMatch key then c.getVal key now else none
    | none => none : Option JVal) with
  | some v => (.ok (v, .cached), st, 0)
  | none =>
    match alookup st.store.objs key with
    | none => (.error (notFoundErr key), st, 1)
    | some o =>
      match jparse o.content with
      | .error e => (.error e, st, 1)
      | .ok j =>
        (.ok (j, .backend { size := o.content.length, mtime := o.mtime }),
          cacheSetStep st key j now, 1)

/-!  ### Association-list lemmas  -/

lemma find?_append_of_none {α : Type _} (p : α → Bool) (l1 l2 : List α)
    (h : l1.find? p = none) : (l1 ++ l2).find? p = l2.find? p := by
  induction l1 with
  | nil => rfl
  | cons a t ih =>
    rw [List.find?_cons] at h
    rw [List.cons_append, List.find?_cons]
    cases hpa : p a with
    | true => rw [hpa] at h; simp at h
    | false => rw [hpa] at h; exact ih h

lemma find?_append_of_some {α : Type _} (p : α → Bool) (l1 l2 : List α)
    (a : α) (h : l1.find? p = some a) : (l1 ++ l2).find? p = some a := by
  induction l1 with
  | nil => simp at h
  | cons b t ih =>
    rw [List.find?_cons] at h
    rw [List.cons_append, List.find?_cons]
    cases hpb : p b with
    | true => rw [hpb] at h; exact h
    | false => rw [hpb] at h; exact ih h

/-- Entries surviving `aerase l k` never have key `k`, so a `find?` for key `k`
over them fails. -/
lemma find?_aerase_self {β : Type _} (l : List (String × β)) (k : String) :
    (aerase l k).find? (fun e => e.1 == k) = none := by
  rw [List.find?_eq_none]
  intro e he
  have := List.of_mem_filter he
  simpa using this

lemma alookup_ainsert_self {β : Type _} (l : List (String × β)) (k : String)
    (v : β) : alookup (ainsert l k v) k = some v := by
  unfold alookup ainsert
  rw [find?_append_of_none _ _ _ (find?_aerase_self l k)]
  simp [List.find?_cons]

lemma alookup_cons {β : Type _} (a : String × β) (t : List (String × β))
    (k : String) :
    alookup (a :: t) k = if a.1 = k then some a.2 else alookup t k := by
  unfold alookup
  rw [List.find?_cons]
  by_cases h : a.1 = k
  · have hb : (a.1 == k) = true := by simpa using h
    rw [hb, if_pos h]
    rfl
  · have hb : (a.1 == k) = false := by simpa using h
    rw [hb, if_neg h]

lemma alookup_ainsert_ne {β : Type _} (l : List (String × β)) (k k2 : String)
    (v : β) (hne : k2 ≠ k) : alookup (ainsert l k v) k2 = alookup l k2 := by
  induction l with
  | nil =>
    unfold ainsert aerase
    rw [List.filter_nil, List.nil_append, alookup_cons,
      if_neg (fun hx => hne hx.symm)]
  | cons a t ih =>
    unfold ainsert aerase at ih ⊢
    rw [List.filter_cons]
    by_cases hk : a.1 = k
    · rw [if_neg (by simp [hk]), ih, alookup_cons,
        if_neg (by intro hx; exact hne (hx ▸ hk))]
    · rw [if_pos (by simp [hk]), List.cons_append, alookup_cons, ih,
        alookup_cons]

lemma aerase_of_alookup_none {β : Type _} (l : List (String × β)) (k : String)
    (h : alookup l k = none) : aerase l k = l := by
  unfold alookup at h
  have hfind : l.find? (fun e => e.1 == k) = none := by
    cases hf : l.find? (fun e => e.1 == k) with
    | none => rfl
    | some x => rw [hf] at h; simp at h
  unfold aerase
  rw [List.filter_eq_self]
  intro e he
  have := List.find?_eq_none.mp hfind e he
  simpa using this

/-- `cacheRemoveStep` only touches the cache, never the backend store. -/
lemma cacheRemoveStep_store (st : ClientState) (key : String) :
    (cacheRemoveStep st key).store = st.store := by
  unfold cacheRemoveStep
  cases st.cache with
  | none => rfl
  | some c =>
    by_cases h : (c.cfg.keyMatch key && c.hasKey key) = true
    · simp [h]
    · have h2 : (c.cfg.keyMatch key && c.hasKey key) = false := by
        simpa using h
      simp [h2]

/-!  ## Claim C4 — delete of a missing key returns NotFound  -/

/-- **C4**: deleting a key absent from the backend returns the synthesized
NotFound error (produced by the preliminary `head`, since the backend delete
reports no error for missing keys) instead of silently succeeding, and leaves
the backend store untouched; the raw backend delete itself, by contrast,
would have reported success on the very same missing key. -/
theorem delete_missing_key_not_found (st : ClientState) (key : String)
    (habs : alookup st.store.objs key = none) :
    (s3delete st key false).1 = .error (notFoundErr key)
    ∧ (s3delete st key false).2.store = st.store
    ∧ (alookup st.store.failDelete key = none →
        awsDeleteRaw st.store key = .ok st.store) := by
  have hstore := cacheRemoveStep_store st key
  have hhead : s3head (cacheRemoveStep st key) key false
      = .error (notFoundErr key) := by
    unfold s3head
    rw [hstore, habs]
    rfl
  refine ⟨?_, ?_, ?_⟩
  · unfold s3delete
    rw [if_neg (by simp)]
    rw [hhead]
  · unfold s3delete
    rw [if_neg (by simp)]
    rw [hhead, hstore]
  · intro hfd
    unfold awsDeleteRaw
    rw [hfd, aerase_of_alookup_none _ _ habs]

theorem delete_missing_key_not_found_witness :
    (alookup (⟨⟨[], []⟩, none⟩ : ClientState).store.objs "k" = none)
    ∧ ((s3delete (⟨⟨[], []⟩, none⟩ : ClientState) "k" false).1
        = .error (notFoundErr "k")
      ∧ (s3delete (⟨⟨[], []⟩, none⟩ : ClientState) "k" false).2.store
          = (⟨⟨[], []⟩, none⟩ : ClientState).store
      ∧ (alookup (⟨⟨[], []⟩, none⟩ : ClientState).store.failDelete "k" = none →
          awsDeleteRaw (⟨⟨[], []⟩, none⟩ : ClientState).store "k"
            = .ok (⟨⟨[], []⟩, none⟩ : ClientState).store)) :=
  ⟨rfl, delete_missing_key_not_found ⟨⟨[], []⟩, none⟩ "k" rfl⟩

/-!  ## Claim C5 — move is copy-then-delete, not rolled back  -/

/-- **C5**: when `move`'s copy succeeds but the backend delete of the source
fails, the reported error is the delete failure, and afterwards BOTH the
source object (unchanged) and the freshly copied destination object exist:
the copy is not rolled back. -/
theorem move_copy_ok_delete_fails (st : ClientState) (srcKey dstKey : String)
    (o : SObj) (e : JSError) (now : Int)
    (hsrc : alookup st.store.objs srcKey = some o)
    (hfail : alookup st.store.failDelete srcKey = some e)
    (hne : srcKey ≠ dstKey) :
    (s3move st srcKey dstKey now false).1 = .error e
    ∧ alookup (s3move st srcKey dstKey now false).2.store.objs srcKey = some o
    ∧ alookup (s3move st srcKey dstKey now false).2.store.objs dstKey
        = some ⟨o.content, now⟩ := by
  have hlook2 : alookup (ainsert st.store.objs dstKey ⟨o.content, now⟩) srcKey
      = some o := by
    rw [alookup_ainsert_ne _ _ _ _ hne]; exact hsrc
  have hlookd : alookup (ainsert st.store.objs dstKey ⟨o.content, now⟩) dstKey
      = some ⟨o.content, now⟩ := alookup_ainsert_self _ _ _
  have hcopy : s3copy st srcKey dstKey now false
      = (.ok (), ⟨⟨ainsert st.store.objs dstKey ⟨o.content, now⟩,
          st.store.failDelete⟩, st.cache⟩) := by
    unfold s3copy
    rw [if_neg (by simp), hsrc]
  have hmove : s3move st srcKey dstKey now false
      = (.error e, cacheRemoveStep
          ⟨⟨ainsert st.store.objs dstKey ⟨o.content, now⟩,
            st.store.failDelete⟩, st.cache⟩ srcKey) := by
    unfold s3move
    rw [hcopy]
    show s3delete (⟨⟨ainsert st.store.objs dstKey ⟨o.content, now⟩,
        st.store.failDelete⟩, st.cache⟩ : ClientState) srcKey false = _
    unfold s3delete
    rw [if_neg (by simp)]
    have hhead : s3head (cacheRemoveStep
        ⟨⟨ainsert st.store.objs dstKey ⟨o.content, now⟩,
          st.store.failDelete⟩, st.cache⟩ srcKey) srcKey false
        = .ok (some ⟨o.content.length, o.mtime⟩) := by
      unfold s3head
      rw [cacheRemoveStep_store]
      dsimp only
      rw [hlook2]
    rw [hhead]
    have hdel : awsDeleteRaw (cacheRemoveStep
        ⟨⟨ainsert st.store.objs dstKey ⟨o.content, now⟩,
          st.store.failDelete⟩, st.cache⟩ srcKey).store srcKey
        = .error e := by
      unfold awsDeleteRaw
      rw [cacheRemoveStep_store]
      dsimp only
      rw [hfail]
    rw [hdel]
  rw [hmove]
  refine ⟨rfl, ?_, ?_⟩
  · rw [cacheRemoveStep_store]
    dsimp only
    exact hlook2
  · rw [cacheRemoveStep_store]
    dsimp only
    exact hlookd

theorem move_copy_ok_delete_fails_witness :
    (alookup (⟨⟨[("s", ⟨"data", 3⟩)], [("s", ⟨"boom", none⟩)]⟩, none⟩
        : ClientState).store.objs "s" = some ⟨"data", 3⟩
      ∧ alookup (⟨⟨[("s", ⟨"data", 3⟩)], [("s", ⟨"boom", none⟩)]⟩, none⟩
          : ClientState).store.failDelete "s" = some ⟨"boom", none⟩
      ∧ ("s" : String) ≠ "d")
    ∧ ((s3move (⟨⟨[("s", ⟨"data", 3⟩)], [("s", ⟨"boom", none⟩)]⟩, none⟩
          : ClientState) "s" "d" 9 false).1 = .error ⟨"boom", none⟩
      ∧ alookup (s3move (⟨⟨[("s", ⟨"data", 3⟩)], [("s", ⟨"boom", none⟩)]⟩,
          none⟩ : ClientState) "s" "d" 9 false).2.store.objs "s"
          = some ⟨"data", 3⟩
      ∧ alookup (s3move (⟨⟨[("s", ⟨"data", 3⟩)], [("s", ⟨"boom", none⟩)]⟩,
          none⟩ : ClientState) "s" "d" 9 false).2.store.objs "d"
          = some ⟨"data", 9⟩) :=
  ⟨⟨rfl, rfl, by decide⟩,
    move_copy_ok_delete_fails _ "s" "d" ⟨"data", 3⟩ ⟨"boom", none⟩ 9
      rfl rfl (by decide)⟩

/-!  ## Claim C10 — delete purges the cache entry before the backend check  -/

lemma hasKey_del_self (c : CacheState) (k : String) :
    (c.del k).hasKey k = false := by
  unfold CacheState.del CacheState.hasKey
  rw [List.any_eq_false]
  intro e he
  have hmem := List.of_mem_filter he
  simpa using hmem

/-- **C10**: for every non-dry `delete` with the cache enabled, the key
matching the cache pattern and present in the cache, the cache entry is
removed (before the backend existence check runs), so the key is absent from
the final cache whatever the backend outcome — NotFound from the preliminary
head, an injected backend delete error, or success. -/
theorem delete_purges_cache (st : ClientState) (c : CacheState) (key : String)
    (hc : st.cache = some c) (hm : c.cfg.keyMatch key = true)
    (hh : c.hasKey key = true) :
    (s3delete st key false).2.cache = some (c.del key)
    ∧ (c.del key).hasKey key = false := by
  have hrm : cacheRemoveStep st key = { st with cache := some (c.del key) } := by
    unfold cacheRemoveStep
    rw [hc]
    simp [hm, hh]
  refine ⟨?_, hasKey_del_self c key⟩
  unfold s3delete
  rw [if_neg (by simp), hrm]
  cases hhd : s3head { st with cache := some (c.del key) } key false with
  | error e => rfl
  | ok mo =>
    cases hdel : awsDeleteRaw
        ({ st with cache := some (c.del key) } : ClientState).store key with
    | error e => rfl
    | ok s2 => rfl

theorem delete_purges_cache_witness :
    ((⟨⟨[], []⟩, some ⟨⟨fun _ => true, none, none⟩, [("k", .null, 0)]⟩⟩
        : ClientState).cache
        = some ⟨⟨fun _ => true, none, none⟩, [("k", .null, 0)]⟩
      ∧ (⟨⟨fun _ => true, none, none⟩, [("k", .null, 0)]⟩
          : CacheState).cfg.keyMatch "k" = true
      ∧ (⟨⟨fun _ => true, none, none⟩, [("k", .null, 0)]⟩
          : CacheState).hasKey "k" = true)
    ∧ ((s3delete (⟨⟨[], []⟩, some ⟨⟨fun _ => true, none, none⟩,
          [("k", .null, 0)]⟩⟩ : ClientState) "k" false).2.cache
        = some ((⟨⟨fun _ => true, none, none⟩, [("k", .null, 0)]⟩
            : CacheState).del "k")
      ∧ ((⟨⟨fun _ => true, none, none⟩, [("k", .null, 0)]⟩
          : CacheState).del "k").hasKey "k" = false) :=
  ⟨⟨rfl, rfl, rfl⟩,
    delete_purges_cache _ ⟨⟨fun _ => true, none, none⟩, [("k", .null, 0)]⟩
      "k" rfl rfl rfl⟩

/-!  ## Claim C9 — parse failure on get leaves the cache unpopulated  -/

/-- The cache-consultation step of `get` misses: either there is no cache, or
the key does not match the pattern, or the cache holds no fresh entry. -/
def CacheMiss (st : ClientState) (key : String) (now : Int) : Prop :=
  match st.cache with
  | none => True
  | some c => c.cfg.keyMatch key = false ∨ c.getVal key now = none

/-- **C9**: when the fetched bytes fail to parse as JSON, `get` propagates the
parse error and returns the state COMPLETELY unchanged — in particular the
cache is not populated for the key — while still having issued one backend
request; since the state is unchanged, a repeated `get` behaves identically,
issuing a backend request again. -/
theorem get_parse_error_leaves_cache (jparse : String → Except JSError JVal)
    (st : ClientState) (key : String) (now : Int) (o : SObj) (e : JSError)
    (hmiss : CacheMiss st key now)
    (ho : alookup st.store.objs key = some o)
    (hpe : jparse o.content = .error e) :
    s3get jparse st key now = (.error e, st, 1) := by
  unfold s3get
  have hhit : (match st.cache with
      | some c => if c.cfg.keyMatch key then c.getVal key now else none
      | none => none : Option JVal) = none := by
    unfold CacheMiss at hmiss
    cases hcc : st.cache with
    | none => rfl
    | some c =>
      rw [hcc] at hmiss
      rcases hmiss with hm | hg
      · simp [hm]
      · simp [hg]
  rw [hhit]
  simp only [ho, hpe]

theorem get_parse_error_leaves_cache_witness :
    (CacheMiss (⟨⟨[("k", ⟨"oops", 0⟩)], []⟩, none⟩ : ClientState) "k" 0
      ∧ alookup (⟨⟨[("k", ⟨"oops", 0⟩)], []⟩, none⟩
          : ClientState).store.objs "k" = some ⟨"oops", 0⟩
      ∧ (fun _ => (.error ⟨"SyntaxError", none⟩ : Except JSError JVal)) "oops"
          = .error ⟨"SyntaxError", none⟩)
    ∧ s3get (fun _ => .error ⟨"SyntaxError", none⟩)
        (⟨⟨[("k", ⟨"oops", 0⟩)], []⟩, none⟩ : ClientState) "k" 0
        = (.error ⟨"SyntaxError", none⟩,
            (⟨⟨[("k", ⟨"oops", 0⟩)], []⟩, none⟩ : ClientState), 1) :=
  ⟨⟨trivial, rfl, rfl⟩,
    get_parse_error_leaves_cache _ _ "k" 0 ⟨"oops", 0⟩ ⟨"SyntaxError", none⟩
      trivial rfl rfl⟩

/-!  ## Claim C6 — put caches the pre-serialization value; get hits it  -/

lemma find?_self_append {β : Type _} (l : List (String × β)) (k : String)
    (x : β) (h : ∀ e ∈ l, (e.1 == k) = false) :
    (l ++ [(k, x)]).find? (fun e => e.1 == k) = some (k, x) := by
  rw [find?_append_of_none]
  · rw [List.find?_cons]
    simp
  · rw [List.find?_eq_none]
    intro e he
    simp [h e he]

/-- A fresh `set` is immediately visible to `get` (provided `maxAge` is
positive and `maxItems` at least one, so the new entry neither starts expired
nor is evicted by its own insertion). -/
lemma getVal_set_fresh (c : CacheState) (k : String) (v : JVal) (now : Int)
    (hage : ∀ ma, c.cfg.maxAge = some ma → 0 < ma)
    (hitems : ∀ m, c.cfg.maxItems = some m → 1 ≤ m) :
    (c.set k v now).getVal k now = some v := by
  have hA : ∀ e ∈ c.entries.filter (fun e => !(e.1 == k)),
      (e.1 == k) = false := by
    intro e he
    have := List.of_mem_filter he
    simpa using this
  have hfind : (capEvict c.cfg.maxItems
      (c.entries.filter (fun e => !(e.1 == k)) ++ [(k, v, now)])).find?
        (fun e => e.1 == k) = some (k, v, now) := by
    cases hmi : c.cfg.maxItems with
    | none => exact find?_self_append _ _ _ hA
    | some m =>
      have hm1 : 1 ≤ m := hitems m hmi
      have hev : capEvict (some m)
          (c.entries.filter (fun e => !(e.1 == k)) ++ [(k, v, now)])
          = (c.entries.filter (fun e => !(e.1 == k)) ++ [(k, v, now)]).drop
            ((c.entries.filter (fun e => !(e.1 == k))
              ++ [(k, v, now)]).length - m) := rfl
      have hle : (c.entries.filter (fun e => !(e.1 == k)) ++ [(k, v, now)]).length
            - m ≤ (c.entries.filter (fun e => !(e.1 == k))).length := by
        rw [List.length_append]
        simp
        omega
      rw [hev, List.drop_append_of_le_length hle]
      exact find?_self_append _ _ _
        (fun e he => hA e (List.mem_of_mem_drop he))
  unfold CacheState.getVal
  have hent : (c.set k v now).entries
      = capEvict c.cfg.maxItems
          (c.entries.filter (fun e => !(e.1 == k)) ++ [(k, v, now)]) := rfl
  have hcfg : (c.set k v now).cfg = c.cfg := rfl
  rw [hent, hcfg, hfind]
  cases hma : c.cfg.maxAge with
  | none => rfl
  | some ma =>
    have hpos := hage ma hma
    show (if now - now < ma then some v else none) = some v
    rw [if_pos (by omega)]

/-- **C6**: with the cache enabled and the key matching the pattern, a
successful `put(key, V)` stores the PRE-serialization object `V` in the cache
— the theorem holds for EVERY serializer and EVERY parser, with no coherence
between them, so no serialize/parse round-trip is involved — and an immediate
`get(key)` returns that very `V` with the `{cached: true}` marker, issuing
zero backend requests and leaving the state unchanged. -/
theorem put_then_get_cached (stringify : JVal → String)
    (jparse : String → Except JSError JVal) (st : ClientState)
    (c : CacheState) (key : String) (v : JVal) (now : Int)
    (hc : st.cache = some c) (hm : c.cfg.keyMatch key = true)
    (htr : jsTruthy v = true) (hob : jsTypeofObject v = true)
    (hage : ∀ ma, c.cfg.maxAge = some ma → 0 < ma)
    (hitems : ∀ m, c.cfg.maxItems = some m → 1 ≤ m) :
    ∃ st1 : ClientState,
      s3put stringify st key v now false = (.ok (), st1)
      ∧ st1.cache = some (c.set key v now)
      ∧ s3get jparse st1 key now = (.ok (v, .cached), st1, 0) := by
  have hcB : ({ st with store := { st.store with
      objs := ainsert st.store.objs key ⟨stringify v, now⟩ } }
        : ClientState).cache = some c := hc
  have h2 : (cacheSetStep { st with store := { st.store with
      objs := ainsert st.store.objs key ⟨stringify v, now⟩ } }
        key v now).cache = some (c.set key v now) := by
    unfold cacheSetStep
    rw [hcB]
    simp [hm]
  refine ⟨cacheSetStep { st with store := { st.store with
      objs := ainsert st.store.objs key ⟨stringify v, now⟩ } } key v now,
    ?_, h2, ?_⟩
  · unfold s3put
    rw [htr, hob]
    rfl
  · have hgv := getVal_set_fresh c key v now hage hitems
    have hcfg : (c.set key v now).cfg = c.cfg := rfl
    unfold s3get
    rw [h2]
    simp only [hcfg, hm, if_true, hgv]

theorem put_then_get_cached_witness :
    ((⟨⟨[], []⟩, some ⟨⟨fun _ => true, some 10, some 100⟩, []⟩⟩
        : ClientState).cache
        = some ⟨⟨fun _ => true, some 10, some 100⟩, []⟩
      ∧ (⟨⟨fun _ => true, some 10, some 100⟩, []⟩
          : CacheState).cfg.keyMatch "k" = true
      ∧ jsTruthy (.obj []) = true
      ∧ jsTypeofObject (.obj []) = true)
    ∧ (∃ st1 : ClientState,
        s3put (fun _ => "s")
          (⟨⟨[], []⟩, some ⟨⟨fun _ => true, some 10, some 100⟩, []⟩⟩
            : ClientState) "k" (.obj []) 0 false = (.ok (), st1)
        ∧ st1.cache = some ((⟨⟨fun _ => true, some 10, some 100⟩, []⟩
            : CacheState).set "k" (.obj []) 0)
        ∧ s3get (fun _ => .error ⟨"x", none⟩) st1 "k" 0
            = (.ok ((.obj []), .cached), st1, 0)) :=
  ⟨⟨rfl, rfl, rfl, rfl⟩,
    put_then_get_cached (fun _ => "s") (fun _ => .error ⟨"x", none⟩) _
      ⟨⟨fun _ => true, some 10, some 100⟩, []⟩ "k" (.obj []) 0 rfl rfl rfl rfl
      (fun ma hma => by injection hma with h; omega)
      (fun m hmm => by injection hmm with h; omega)⟩

/-!  ## Claim C7 — capacity eviction follows insertion order  -/

/-- **C7**: when a `set` of a fresh key overflows the configured `maxItems`,
the evicted entry is exactly the least-recently-INSERTED one (the head of the
insertion-ordered entry list): the new entry list is the old one minus its
oldest entry, plus the new entry at the back.  Cache reads (`getVal`,
`hasKey`) are pure and never reorder entries, so intervening get accesses to
older entries cannot change which entry is evicted — eviction is FIFO by
insertion, not LRU. -/
theorem cache_eviction_insertion_order (c : CacheState) (m : Nat) (k : String)
    (v : JVal) (now : Int) (hmi : c.cfg.maxItems = some m)
    (hlen : c.entries.length = m) (hpos : 0 < m)
    (hfresh : c.hasKey k = false) :
    (c.set k v now).entries = c.entries.tail ++ [(k, v, now)] := by
  have hfilt : c.entries.filter (fun e => !(e.1 == k)) = c.entries := by
    rw [List.filter_eq_self]
    intro e he
    have hfr : c.entries.any (fun e => e.1 == k) = false := hfresh
    have := List.any_eq_false.mp hfr e he
    simpa using this
  have hent : (c.set k v now).entries
      = capEvict c.cfg.maxItems
          (c.entries.filter (fun e => !(e.1 == k)) ++ [(k, v, now)]) := rfl
  rw [hent, hfilt, hmi]
  have hev : capEvict (some m) (c.entries ++ [(k, v, now)])
      = (c.entries ++ [(k, v, now)]).drop
          ((c.entries ++ [(k, v, now)]).length - m) := rfl
  rw [hev]
  have hd : (c.entries ++ [(k, v, now)]).length - m = 1 := by
    rw [List.length_append, hlen]
    simp
  rw [hd, List.drop_append_of_le_length (by rw [hlen]; omega),
    List.drop_one]

theorem cache_eviction_insertion_order_witness :
    ((⟨⟨fun _ => true, some 2, none⟩, [("a", .null, 0), ("b", .null, 1)]⟩
        : CacheState).cfg.maxItems = some 2
      ∧ (⟨⟨fun _ => true, some 2, none⟩, [("a", .null, 0), ("b", .null, 1)]⟩
          : CacheState).entries.length = 2
      ∧ 0 < 2
      ∧ (⟨⟨fun _ => true, some 2, none⟩, [("a", .null, 0), ("b", .null, 1)]⟩
          : CacheState).hasKey "c" = false)
    ∧ ((⟨⟨fun _ => true, some 2, none⟩, [("a", .null, 0), ("b", .null, 1)]⟩
        : CacheState).set "c" .null 5).entries
        = ([("a", JVal.null, 0), ("b", JVal.null, 1)]
            : List (String × JVal × Int)).tail ++ [("c", JVal.null, 5)] :=
  ⟨⟨rfl, rfl, by decide, rfl⟩,
    cache_eviction_insertion_order _ 2 "c" .null 5 rfl rfl (by decide) rfl⟩

/-!  ## Bounded Concurrency Driver (claims C2 and C3)

The multi-object operations `uploadFiles`, `downloadFiles`, `deleteFiles`,
`copyFiles` and `moveFiles` all drive their per-item operations through
`async.eachLimit(files, opts.threads || 1, perItem, done)`
(`src/s3.js:407`, `src/s3.js:489`, `src/s3.js:1002`, `src/s3.js:1062`,
`src/s3.js:1116`).  The eachLimit implementation lives in pixl-tools, which
is not among this repository's sources; the driver below is modelled from
the spec (§4.3): at most `limit` operations in flight, a completing item
immediately frees a slot for the next queued item, no new work is issued
after the first error, and the final callback fires only once all in-flight
items have drained, carrying the first error. -/

/-- The JS default `opts.threads || 1` taken from the call sites in
`src/s3.js`: an absent `threads` (and `0`, which is falsy) gives
concurrency 1. -/
def threadsOrDefault : Option Nat → Nat
  | none => 1
  | some 0 => 1
  | some (n + 1) => n + 1

/-- Modelled from the spec: a driver state — items not yet started, items in
flight, items completed, the first error reported by a failed item, and
whether the final callback has fired. -/
structure DrvState (α : Type) where
  pending : List α
  inflight : List α
  completed : List α
  firstErr : Option JSError
  done : Bool

/-- Modelled from the spec: the driver's initial state on a list of items. -/
def DrvState.init {α : Type} (items : List α) : DrvState α :=
  ⟨items, [], [], none, false⟩

/-- Modelled from the spec: one scheduling event of the driver.  `start`
launches the next queued item while a slot is free and no error has occurred;
`finishOk`/`finishErr` complete an in-flight item; `finish` fires the final
callback once nothing is in flight and either the queue is empty or an error
stopped further issuing. -/
inductive DrvStep {α : Type} [DecidableEq α] (limit : Nat) :
    DrvState α → DrvState α → Prop where
  | start (s : DrvState α) (x : α) (p2 : List α) (hp : s.pending = x :: p2)
      (hf : s.firstErr = none) (hd : s.done = false)
      (hcap : s.inflight.length < limit) :
      DrvStep limit s ⟨p2, x :: s.inflight, s.completed, s.firstErr, false⟩
  | finishOk (s : DrvState α) (x : α) (hx : x ∈ s.inflight)
      (hd : s.done = false) :
      DrvStep limit s ⟨s.pending, s.inflight.erase x, x :: s.completed,
        s.firstErr, false⟩
  | finishErr (s : DrvState α) (x : α) (e : JSError) (hx : x ∈ s.inflight)
      (hd : s.done = false) :
      DrvStep limit s ⟨s.pending, s.inflight.erase x, s.completed,
        some (s.firstErr.getD e), false⟩
  | finish (s : DrvState α) (hin : s.inflight = []) (hd : s.done = false)
      (hend : s.pending = [] ∨ s.firstErr.isSome = true) :
      DrvStep limit s ⟨s.pending, s.inflight, s.completed, s.firstErr, true⟩

/-- Modelled from the spec: the states a driver run can reach. -/
inductive DrvReach {α : Type} [DecidableEq α] (limit : Nat)
    (s0 : DrvState α) : DrvState α → Prop where
  | refl : DrvReach limit s0 s0
  | tail (s s2 : DrvState α) (h : DrvReach limit s0 s)
      (hs : DrvStep limit s s2) : DrvReach limit s0 s2

/-- The driver's run invariant: bounded in-flight count; a finished run has
drained and (absent an error) exhausted the queue; and, while no error has
occurred, completed + in-flight + pending items are exactly the input items. -/
def DrvInv {α : Type} (items : List α) (limit : Nat) (s : DrvState α) :
    Prop :=
  s.inflight.length ≤ limit
  ∧ (s.done = true →
      s.inflight = [] ∧ (s.pending = [] ∨ s.firstErr.isSome = true))
  ∧ (s.firstErr = none →
      (s.completed ++ s.inflight ++ s.pending).Perm items)

lemma drv_inv_init {α : Type} (items : List α) (limit : Nat) :
    DrvInv items limit (DrvState.init items) := by
  refine ⟨Nat.zero_le _, ?_, ?_⟩
  · intro h; exact absurd h (by simp [DrvState.init])
  · intro _; simp [DrvState.init]

lemma drv_inv_step {α : Type} [DecidableEq α] (items : List α) (limit : Nat)
    (s s2 : DrvState α) (hinv : DrvInv items limit s)
    (hs : DrvStep limit s s2) : DrvInv items limit s2 := by
  obtain ⟨h1, h2, h3⟩ := hinv
  cases hs with
  | start x p2 hp hf hd hcap =>
    refine ⟨by simpa using hcap, by intro h; exact absurd h (by simp), ?_⟩
    intro hf2
    have hbase := h3 (by simpa using hf2)
    rw [hp] at hbase
    dsimp only
    refine List.Perm.trans ?_ hbase
    rw [List.append_assoc, List.append_assoc]
    exact List.Perm.append_left _ List.perm_middle.symm
  | finishOk x hx hd =>
    refine ⟨?_, by intro h; exact absurd h (by simp), ?_⟩
    · dsimp only
      calc (s.inflight.erase x).length ≤ s.inflight.length :=
            List.length_erase_le _ _
        _ ≤ limit := h1
    · intro hf2
      have hbase := h3 (by simpa using hf2)
      have hin : s.inflight.Perm (x :: s.inflight.erase x) :=
        List.perm_cons_erase hx
      dsimp only
      refine List.Perm.trans ?_ hbase
      rw [List.append_assoc, List.append_assoc]
      refine List.Perm.trans List.perm_middle.symm ?_
      refine List.Perm.append_left _ ?_
      exact hin.symm.append_right s.pending
  | finishErr x e hx hd =>
    refine ⟨?_, by intro h; exact absurd h (by simp), ?_⟩
    · dsimp only
      calc (s.inflight.erase x).length ≤ s.inflight.length :=
            List.length_erase_le _ _
        _ ≤ limit := h1
    · intro hf2; exact absurd hf2 (by simp)
  | finish hin hd hend =>
    exact ⟨h1, fun _ => ⟨hin, hend⟩, h3⟩

lemma drv_reach_inv {α : Type} [DecidableEq α] (items : List α) (limit : Nat)
    (s : DrvState α) (hr : DrvReach limit (DrvState.init items) s) :
    DrvInv items limit s := by
  induction hr with
  | refl => exact drv_inv_init items limit
  | tail s1 s2 h hs ih => exact drv_inv_step items limit s1 s2 ih hs

/-!  ## Claim C2 — bounded concurrency, full completion, default 1  -/

/-- **C2**: for every multi-object operation the per-item concurrency limit is
`opts.threads || 1` (so 1 when `threads` is not supplied), every state
reachable by the modelled driver keeps at most that many items in flight, and
when the final callback fires on an error-free run the completed items are
exactly (a permutation of) the input items — every item completed before the
aggregate result is returned. -/
theorem driver_bounded_concurrency {α : Type} [DecidableEq α]
    (t : Option Nat) (items : List α) (s : DrvState α)
    (hr : DrvReach (threadsOrDefault t) (DrvState.init items) s) :
    threadsOrDefault none = 1
    ∧ s.inflight.length ≤ threadsOrDefault t
    ∧ (s.done = true → s.firstErr = none → s.completed.Perm items) := by
  obtain ⟨h1, h2, h3⟩ := drv_reach_inv items (threadsOrDefault t) s hr
  refine ⟨rfl, h1, ?_⟩
  intro hdone herr
  obtain ⟨hin, hpend⟩ := h2 hdone
  have hpend2 : s.pending = [] := by
    rcases hpend with h | h
    · exact h
    · rw [herr] at h; exact absurd h (by simp)
  have hperm := h3 herr
  rw [hin, hpend2] at hperm
  simpa using hperm

theorem driver_bounded_concurrency_witness :
    threadsOrDefault none = 1
    ∧ (⟨[], [], [], none, true⟩ : DrvState Nat).inflight.length
        ≤ threadsOrDefault (some 3)
    ∧ ((⟨[], [], [], none, true⟩ : DrvState Nat).done = true →
        (⟨[], [], [], none, true⟩ : DrvState Nat).firstErr = none →
        (⟨[], [], [], none, true⟩ : DrvState Nat).completed.Perm
          ([] : List Nat)) :=
  driver_bounded_concurrency (some 3) [] ⟨[], [], [], none, true⟩
    (DrvReach.tail _ _ DrvReach.refl
      (DrvStep.finish _ rfl rfl (Or.inl rfl)))

/-!  ## Claim C3 — first-error propagation after drain, no undo  -/

/-- **C3**: once some item has failed, no step of the driver issues new work
(the pending queue is never dequeued again) and the recorded first error is
never overwritten; the final callback fires only in states with an empty
in-flight set (all in-flight items drained before the error propagates); and
completed items are never undone by any step. -/
theorem driver_error_first_drain {α : Type} [DecidableEq α] (limit : Nat)
    (items : List α) (s s2 : DrvState α) (e : JSError)
    (hr : DrvReach limit (DrvState.init items) s)
    (hs : DrvStep limit s s2) :
    (s.firstErr = some e → s2.pending = s.pending ∧ s2.firstErr = some e)
    ∧ (∀ x ∈ s.completed, x ∈ s2.completed)
    ∧ (s2.done = true → s2.inflight = []) := by
  have hinv2 := drv_reach_inv items limit s2 (DrvReach.tail s s2 hr hs)
  refine ⟨?_, ?_, fun hd => (hinv2.2.1 hd).1⟩
  · intro he
    cases hs with
    | start x p2 hp hf hd hcap => rw [hf] at he; exact absurd he (by simp)
    | finishOk x hx hd => exact ⟨rfl, he⟩
    | finishErr x e2 hx hd =>
      refine ⟨rfl, ?_⟩
      show some (s.firstErr.getD e2) = some e
      rw [he]
      rfl
    | finish hin hd hend => exact ⟨rfl, he⟩
  · intro x hx
    cases hs with
    | start y p2 hp hf hd hcap => exact hx
    | finishOk y hy hd => exact List.mem_cons_of_mem _ hx
    | finishErr y e2 hy hd => exact hx
    | finish hin hd hend => exact hx

theorem driver_error_first_drain_witness :
    ((⟨[1], [], [], some ⟨"fail", none⟩, false⟩ : DrvState Nat).firstErr
        = some ⟨"fail", none⟩ →
      (⟨[1], [], [], some ⟨"fail", none⟩, true⟩ : DrvState Nat).pending
          = (⟨[1], [], [], some ⟨"fail", none⟩, false⟩ : DrvState Nat).pending
      ∧ (⟨[1], [], [], some ⟨"fail", none⟩, true⟩ : DrvState Nat).firstErr
          = some ⟨"fail", none⟩)
    ∧ (∀ x ∈ (⟨[1], [], [], some ⟨"fail", none⟩, false⟩
          : DrvState Nat).completed,
        x ∈ (⟨[1], [], [], some ⟨"fail", none⟩, true⟩
          : DrvState Nat).completed)
    ∧ ((⟨[1], [], [], some ⟨"fail", none⟩, true⟩ : DrvState Nat).done = true →
        (⟨[1], [], [], some ⟨"fail", none⟩, true⟩
          : DrvState Nat).inflight = []) :=
  driver_error_first_drain 1 [0, 1]
    ⟨[1], [], [], some ⟨"fail", none⟩, false⟩
    ⟨[1], [], [], some ⟨"fail", none⟩, true⟩ ⟨"fail", none⟩
    (DrvReach.tail _ _ (DrvReach.tail _ _ DrvReach.refl
      (DrvStep.start _ 0 [1] rfl rfl rfl (by decide)))
      (DrvStep.finishErr _ 0 ⟨"fail", none⟩ (by decide) rfl))
    (DrvStep.finish _ rfl rfl (Or.inr rfl))

end S3Spec
